import Mathlib

/-!
# Verification of the Dynacomp left-ventricle simulation driver

Shallow embedding of the driving logic of the Dynacomp repository:

* `create_geometry.py` — geometric key construction (`triangle_key`,
  `build_face_keys`) and the exterior-facet tagging loop;
* `heart_model.py` — the `HeartModelDynaComp` driver: `compute_volume`
  (continuation loading), `dVda` (finite-difference sensitivity with
  checkpoint/restore), `save` (time-series output), `get_fiber_angles`;
* `pv_data.py` — the `average_array` pressure–volume utility.

Machine floats are embedded as rationals (`ℚ`); numpy arrays as lists;
Python sets as `Finset`; Python exceptions as `Option`/`Except` results.
The nonlinear finite-element solve (`problem.solve`) and the cavity-volume
integral are external collaborators of the driver, so they enter the
embedding as function parameters; the driver logic itself is translated
statement by statement.
-/

/-- Rounding to the nearest integer with ties to even, embedding `np.round`
followed by `astype(int)` (the rounded values are whole, so the cast is
exact). -/
def nround (q : ℚ) : ℤ :=
  let f := ⌊q⌋
  let r := q - (f : ℚ)
  if r < 1 / 2 then f
  else if 1 / 2 < r then f + 1
  else if f % 2 = 0 then f else f + 1

/-- A vertex coordinate triple (a row of `msh.points` / `mesh.coordinates()`). -/
structure Pt3 where
  x : ℚ
  y : ℚ
  z : ℚ
  deriving DecidableEq, Repr

/-- Ascending sort of one coordinate column, embedding `np.sort(·, axis=0)`
restricted to a single column. -/
def sortI (l : List ℤ) : List ℤ :=
  List.insertionSort (· ≤ ·) l

/-- Row-major flattening of the matrix whose columns are the three sorted
coordinate columns, embedding `sorted_coords.flatten()`. -/
def flatten3 : List ℤ → List ℤ → List ℤ → List ℤ
  | a :: as, b :: bs, c :: cs => a :: b :: c :: flatten3 as bs cs
  | _, _, _ => []

/-- `triangle_key(coords, tol)` from `create_geometry.py`: divide the
coordinate rows by `tol`, round, sort each column (`axis=0`), flatten, and
use the resulting tuple as the hashable key. -/
def triangle_key (coords : List Pt3) (tol : ℚ) : List ℤ :=
  let rx := coords.map (fun p => nround (p.x / tol))
  let ry := coords.map (fun p => nround (p.y / tol))
  let rz := coords.map (fun p => nround (p.z / tol))
  flatten3 (sortI rx) (sortI ry) (sortI rz)

/-- The default tolerance `tol=1e-6` of `triangle_key` and `build_face_keys`. -/
def tolDefault : ℚ := 1 / 1000000

/-- The key of one face given as a row of vertex indices into the point
array: `coords = vertex_coordinates[indices]; triangle_key(coords, tol)`. -/
def faceKey (vertex_coordinates : List Pt3) (indices : List ℕ) (tol : ℚ) : List ℤ :=
  triangle_key (indices.map (fun i => vertex_coordinates.getD i ⟨0, 0, 0⟩)) tol

/-- `build_face_keys(face_indices, vertex_coordinates, tol)` from
`create_geometry.py`: the set of keys of a group of faces (a Python `set`,
embedded as a `Finset`). -/
def build_face_keys (face_indices : List (List ℕ)) (vertex_coordinates : List Pt3)
    (tol : ℚ) : Finset (List ℤ) :=
  (face_indices.map (fun indices => faceKey vertex_coordinates indices tol)).toFinset

/-- The three-way priority lookup of the tagging loop in `create_geometry`:
`if key in epi_keys: 7 elif key in endo_keys: 6 elif key in base_keys: 5`,
with the mesh function initialised to 0. -/
def markerOf (epi_keys endo_keys base_keys : Finset (List ℤ)) (key : List ℤ) : ℕ :=
  if key ∈ epi_keys then 7
  else if key ∈ endo_keys then 6
  else if key ∈ base_keys then 5
  else 0

/-- A facet of the dolfin mesh: its exterior flag and its vertex coordinate
rows `mesh.coordinates()[fc.entities(0)]`. -/
structure Facet where
  exterior : Bool
  coords : List Pt3
  deriving DecidableEq

/-- The marker the tagging loop assigns to one facet: exterior facets get
`markerOf` of their `triangle_key` (at the default tolerance); interior
facets keep the initial marker 0. -/
def tagFacet (epi_keys endo_keys base_keys : Finset (List ℤ)) (fc : Facet) : ℕ :=
  if fc.exterior then markerOf epi_keys endo_keys base_keys (triangle_key fc.coords tolDefault)
  else 0

/-- One cell block of a meshio mesh (`msh.cells[i]`): its cell type string
and its connectivity rows. -/
structure CellBlock where
  ctype : String
  data : List (List ℕ)
  deriving DecidableEq

/-- The slice of a meshio mesh that `create_geometry` reads: the point
array, the ordered list of cell blocks, and the named cell sets resolved to
triangle connectivity rows (`msh.cell_sets_dict[name]['triangle']` composed
with the triangle cells). -/
structure MeshioMesh where
  points : List Pt3
  cells : List CellBlock
  cell_sets : List (String × List (List ℕ))
  deriving DecidableEq

/-- `epi_face_indices = msh.cells[0].data` (hard-coded block index 0). -/
def epi_face_indices (msh : MeshioMesh) : List (List ℕ) :=
  (msh.cells.getD 0 ⟨"", []⟩).data

/-- `endo_face_indices = msh.cells[1].data` (hard-coded block index 1). -/
def endo_face_indices (msh : MeshioMesh) : List (List ℕ) :=
  (msh.cells.getD 1 ⟨"", []⟩).data

/-- `base_face_indices = msh.cells[2].data` (hard-coded block index 2). -/
def base_face_indices (msh : MeshioMesh) : List (List ℕ) :=
  (msh.cells.getD 2 ⟨"", []⟩).data

/-- `epi_keys = build_face_keys(epi_face_indices, vertex_coordinates)`. -/
def epi_keys (msh : MeshioMesh) : Finset (List ℤ) :=
  build_face_keys (epi_face_indices msh) msh.points tolDefault

/-- `endo_keys = build_face_keys(endo_face_indices, vertex_coordinates)`. -/
def endo_keys (msh : MeshioMesh) : Finset (List ℤ) :=
  build_face_keys (endo_face_indices msh) msh.points tolDefault

/-- `base_keys = build_face_keys(base_face_indices, vertex_coordinates)`. -/
def base_keys (msh : MeshioMesh) : Finset (List ℤ) :=
  build_face_keys (base_face_indices msh) msh.points tolDefault

/-- The surface elements belonging to a named cell set
(`msh.cell_sets_dict[name]['triangle']` resolved to connectivity rows). -/
def groupTriangles (msh : MeshioMesh) (name : String) : List (List ℕ) :=
  ((msh.cell_sets.find? (fun p => p.1 = name)).map Prod.snd).getD []

/-- Modelled from the spec: the key set of a named surface group is built
from exactly the surface elements belonging to that named group — one key
per surface element, computed by `triangle_key` at the default tolerance.
This is the specification-side definition against which the code-side
`epi_keys`/`endo_keys`/`base_keys` are compared. -/
def spec_group_keys (msh : MeshioMesh) (name : String) : Finset (List ℤ) :=
  build_face_keys (groupTriangles msh name) msh.points tolDefault

/-- The externally visible state of the `HeartModelDynaComp` driver: the
activation scalar (`self.activation`), the cavity pressure scalar
(`self.lv_pressure`), and the deformation/problem state
(`self.problem.state`, abstracted to one coordinate). -/
structure DriverState where
  activation : ℚ
  pressure : ℚ
  state : ℚ
  deriving DecidableEq, Repr

/-- `assign_state_variables(activation_value, pressure_value)`: assigns the
pressure and then the activation constant. -/
def assign_state_variables (s : DriverState) (activation_value pressure_value : ℚ) :
    DriverState :=
  { s with pressure := pressure_value, activation := activation_value }

/-- `HeartModelDynaComp.dVda(activation_value, pressure_value,
delta_a_percent)`: checkpoint the problem state and both scalars, assign the
target load pair and solve directly, record `v_i`, perturb the activation by
`delta_a_percent` and solve directly, record `v_f`, form the forward
difference, then restore the checkpoint and return.  `solve` is the external
`problem.solve()` collaborator (`none` = solver raises, which propagates as
`Except.error` carrying the driver state left behind); `vol` is
`geometry.cavity_volume` as a function of the deformation state. -/
def dVda (solve : DriverState → Option ℚ) (vol : ℚ → ℚ) (s : DriverState)
    (activation_value pressure_value delta_a_percent : ℚ) :
    Except DriverState (ℚ × DriverState) :=
  let state_backup := s.state
  let pressure_backup := s.pressure
  let activation_backup := s.activation
  let s1 := assign_state_variables s activation_value pressure_value
  match solve s1 with
  | none => .error s1
  | some d1 =>
    let s2 := { s1 with state := d1 }
    let a_i := s2.activation
    let v_i := vol s2.state
    let a_f := a_i * (1 + delta_a_percent)
    let s3 := { s2 with activation := a_f }
    match solve s3 with
    | none => .error s3
    | some d2 =>
      let s4 := { s3 with state := d2 }
      let v_f := vol s4.state
      let dV_da := (v_f - v_i) / (a_i * delta_a_percent)
      let s5 := { s4 with state := state_backup }
      let s6 := assign_state_variables s5 activation_backup pressure_backup
      .ok (dV_da, s6)

/-- Assigning the activation control scalar. -/
def setActivation (s : DriverState) (v : ℚ) : DriverState :=
  { s with activation := v }

/-- Assigning the pressure control scalar. -/
def setPressure (s : DriverState) (v : ℚ) : DriverState :=
  { s with pressure := v }

/-- One continuation sub-step: assign the control value, then solve the
nonlinear problem; a convergence failure raises, leaving the driver in the
state of the failed attempt. -/
def stepOnce (solve : DriverState → Option ℚ) (setCtl : DriverState → ℚ → DriverState)
    (s : DriverState) (v : ℚ) : Except DriverState DriverState :=
  let s1 := setCtl s v
  match solve s1 with
  | none => .error s1
  | some d => .ok { s1 with state := d }

/-- Running a list of continuation sub-steps in order, stopping at the first
failure. -/
def runSteps (solve : DriverState → Option ℚ) (setCtl : DriverState → ℚ → DriverState) :
    DriverState → List ℚ → Except DriverState DriverState
  | s, [] => .ok s
  | s, v :: vs =>
    match stepOnce solve setCtl s v with
    | .ok s1 => runSteps solve setCtl s1 vs
    | .error e => .error e

/-- The control values of `n` equal continuation sub-steps from `v0` to
`target` (the last value is exactly `target` when `n ≥ 1`). -/
def substeps (v0 target : ℚ) (n : ℕ) : List ℚ :=
  (List.range n).map (fun i => v0 + ((i + 1 : ℕ) : ℚ) * (target - v0) / (n : ℚ))

/-- Modelled from the spec: `pulse.iterate.iterate(problem, control, target)`
is an external collaborator (the `pulse` library is not part of this
repository); the spec describes it as incremental continuation — advance the
control from its current value to the target in sub-steps, re-solving the
nonlinear boundary-value problem at each sub-step, raising on a failed
sub-step rather than returning.  Embedded with `n` equal sub-steps. -/
def iterateCtl (solve : DriverState → Option ℚ) (setCtl : DriverState → ℚ → DriverState)
    (getCtl : DriverState → ℚ) (s : DriverState) (target : ℚ) (n : ℕ) :
    Except DriverState DriverState :=
  runSteps solve setCtl s (substeps (getCtl s) target n)

/-- `HeartModelDynaComp.compute_volume(activation_value, pressure_value)`:
iterate the activation to its target, then iterate the pressure to its
target, then return the cavity volume of the converged state. -/
def compute_volume (solve : DriverState → Option ℚ) (vol : ℚ → ℚ) (s : DriverState)
    (activation_value pressure_value : ℚ) (n : ℕ) :
    Except DriverState (ℚ × DriverState) :=
  match iterateCtl solve setActivation (fun st => st.activation) s activation_value n with
  | .error e => .error e
  | .ok s1 =>
    match iterateCtl solve setPressure (fun st => st.pressure) s1 pressure_value n with
    | .error e => .error e
    | .ok s2 => .ok (vol s2.state, s2)

/-- One record of a time-series checkpoint file: the quantity name passed to
`write_checkpoint` and the floating time stamp it is keyed by. -/
structure SaveRecord where
  name : String
  time_key : ℚ
  deriving DecidableEq, Repr

/-- The persistent output of the driver: the three per-quantity checkpoint
files (`results.xdmf`, `results_E.xdmf`, `activation.xdmf`), each an
append-only list of records, and the internal step counter `self.t`. -/
structure SaverState where
  u_file : List SaveRecord
  E_file : List SaveRecord
  act_file : List SaveRecord
  t : ℤ
  deriving DecidableEq, Repr

/-- `HeartModelDynaComp.save(t, outdir)`: one `write_checkpoint(·, "u",
float(t+1), HDF5, True)` append to `results.xdmf`, one `write_checkpoint(·,
"E", float(t+1), HDF5, True)` append to `results_E.xdmf`, one
`write_checkpoint(·, "activation", float(t+1), HDF5, True)` append to
`activation.xdmf`, then `self.t += 1`. -/
def save (st : SaverState) (tval : ℚ) : SaverState :=
  { u_file := st.u_file ++ [⟨"u", tval + 1⟩],
    E_file := st.E_file ++ [⟨"E", tval + 1⟩],
    act_file := st.act_file ++ [⟨"activation", tval + 1⟩],
    t := st.t + 1 }

/-- `scipy.interpolate.interp1d(x, array, kind="linear",
fill_value="extrapolate")` evaluated at `q`, for the x-grid
`x = linspace(0, len(array)-1, num=len(array)) = [0, 1, ..., len-1]`:
piecewise-linear interpolation on the segment `[i, i+1]` containing `q`,
with the edge segments extended for extrapolation. -/
def interpLin (ys : List ℚ) (q : ℚ) : ℚ :=
  let n := ys.length
  let i : ℤ := max 0 (min ⌊q⌋ ((n : ℤ) - 2))
  let i0 := i.toNat
  let y0 := ys.getD i0 0
  let y1 := ys.getD (i0 + 1) 0
  y0 + (y1 - y0) * (q - (i : ℚ))

/-- `average_array(arrays)` from `pv_data.py`: interpolate every input array
onto the common grid `linspace(0, max_length-1, num=100)` and average the
interpolated arrays pointwise.  `none` embeds the Python exceptions: `max`
of an empty sequence, and `interp1d` rejecting arrays with fewer than two
entries. -/
def average_array (arrays : List (List ℚ)) : Option (List ℚ) :=
  if arrays.isEmpty then none
  else if arrays.any (fun a => a.length < 2) then none
  else
    let max_length : ℕ := (arrays.map List.length).foldr max 0
    let average_x : List ℚ :=
      (List.range 100).map (fun i => ((max_length : ℚ) - 1) * (i : ℚ) / 99)
    let interpolated := arrays.map (fun a => average_x.map (fun q => interpLin a q))
    some ((List.range 100).map (fun j =>
      (interpolated.map (fun row => row.getD j 0)).sum / (arrays.length : ℚ)))

/-- `get_default_fiber_angles()` (identical in `create_geometry.py` and
`heart_model.py`): the four default angles in dict insertion order. -/
def get_default_fiber_angles : List (String × ℚ) :=
  [("alpha_endo_lv", 60), ("alpha_epi_lv", -60), ("beta_endo_lv", -15), ("beta_epi_lv", 15)]

/-- Dictionary lookup, `d.get(k)`: the value at the first matching key. -/
def dictGet (d : List (String × ℚ)) (k : String) : Option ℚ :=
  (d.find? (fun p => p.1 = k)).map Prod.snd

/-- `get_fiber_angles(fiber_angles)` (identical in `create_geometry.py` and
`heart_model.py`): if `fiber_angles` is falsy (`None` or the empty dict),
return the defaults; otherwise rebuild a dict over exactly the default keys,
taking `fiber_angles.get(key, default[key])` for each. -/
def get_fiber_angles (fiber_angles : Option (List (String × ℚ))) : List (String × ℚ) :=
  match fiber_angles with
  | none => get_default_fiber_angles
  | some d =>
    if d.isEmpty then get_default_fiber_angles
    else get_default_fiber_angles.map (fun p => (p.1, (dictGet d p.1).getD p.2))

/-- C4: For every exterior facet of the volumetric mesh, the tagger computes
the facet's geometric key and looks it up against the three key sets in the
fixed priority order Epi, then Endo, then Base, assigning the corresponding
distinct nonzero marker (7, 6, 5) on the first match; an exterior facet whose
key is in none of the three sets keeps marker 0, and no facet is ever
assigned a marker of a group whose key set does not contain its key. -/
theorem tagging_priority_spec (ek nk bk : Finset (List ℤ)) (fc : Facet)
    (hext : fc.exterior = true) :
    ((triangle_key fc.coords tolDefault ∈ ek → tagFacet ek nk bk fc = 7) ∧
     (triangle_key fc.coords tolDefault ∉ ek → triangle_key fc.coords tolDefault ∈ nk →
        tagFacet ek nk bk fc = 6) ∧
     (triangle_key fc.coords tolDefault ∉ ek → triangle_key fc.coords tolDefault ∉ nk →
        triangle_key fc.coords tolDefault ∈ bk → tagFacet ek nk bk fc = 5) ∧
     (triangle_key fc.coords tolDefault ∉ ek → triangle_key fc.coords tolDefault ∉ nk →
        triangle_key fc.coords tolDefault ∉ bk → tagFacet ek nk bk fc = 0)) ∧
    ((tagFacet ek nk bk fc = 7 → triangle_key fc.coords tolDefault ∈ ek) ∧
     (tagFacet ek nk bk fc = 6 → triangle_key fc.coords tolDefault ∈ nk) ∧
     (tagFacet ek nk bk fc = 5 → triangle_key fc.coords tolDefault ∈ bk)) := by
  simp only [tagFacet, hext, if_true, markerOf]
  by_cases h1 : triangle_key fc.coords tolDefault ∈ ek <;>
    by_cases h2 : triangle_key fc.coords tolDefault ∈ nk <;>
      by_cases h3 : triangle_key fc.coords tolDefault ∈ bk <;>
        simp [h1, h2, h3]

/-- Witness for `tagging_priority_spec` at a concrete facet and key sets. -/
theorem tagging_priority_spec_witness :
    tagFacet {([] : List ℤ)} ∅ ∅ ⟨true, []⟩ = 7 :=
  (tagging_priority_spec {([] : List ℤ)} ∅ ∅ ⟨true, []⟩ rfl).1.1 (by decide)

/-- C8 counterexample: `save` keys the appended records by `t + 1`, not by
the time stamp `t` passed as `time_index`; at `t = 0` the displacement
record written is keyed `1.0`, which differs from the record keyed `0.0`
that the claim prescribes. -/
theorem save_time_key_counterexample :
    (save ⟨[], [], [], 0⟩ 0).u_file = [⟨"u", 1⟩] ∧
    (⟨"u", 1⟩ : SaveRecord) ≠ ⟨"u", 0⟩ := by
  refine ⟨by norm_num [save], ?_⟩
  intro h
  have := congrArg SaveRecord.time_key h
  norm_num at this

/-- C8 (amended): every call `save(t, outdir)` appends exactly one record to
each of the three per-quantity checkpoint files ("u", "E", "activation"),
each record keyed by the floating time stamp `t + 1` (not `t`), increments
the internal step counter by exactly 1, and leaves every record from earlier
calls in place (the old file contents are a prefix of the new). -/
theorem save_appends_spec (st : SaverState) (tval : ℚ) :
    (save st tval).u_file = st.u_file ++ [⟨"u", tval + 1⟩] ∧
    (save st tval).E_file = st.E_file ++ [⟨"E", tval + 1⟩] ∧
    (save st tval).act_file = st.act_file ++ [⟨"activation", tval + 1⟩] ∧
    (save st tval).t = st.t + 1 ∧
    (save st tval).u_file.take st.u_file.length = st.u_file ∧
    (save st tval).E_file.take st.E_file.length = st.E_file ∧
    (save st tval).act_file.take st.act_file.length = st.act_file := by
  refine ⟨rfl, rfl, rfl, rfl, ?_, ?_, ?_⟩ <;> simp [save]

/-- C1: For every valid (activation, pressure) pair with activation ≠ 0, a
call to `dVda` that completes normally leaves the driver's observable state
— activation scalar, pressure scalar, and deformation/problem state (hence
the reported volume) — bit-identical to its values immediately before the
call, for every behaviour of the external solver and volume integral. -/
theorem dVda_restores_state (solve : DriverState → Option ℚ) (vol : ℚ → ℚ)
    (s : DriverState) (a p δ : ℚ) (ha : a ≠ 0) (r : ℚ) (s' : DriverState)
    (h : dVda solve vol s a p δ = .ok (r, s')) : s' = s := by
  simp only [dVda, assign_state_variables] at h
  split at h
  · exact absurd h (by simp)
  · split at h
    · exact absurd h (by simp)
    · simp only [Except.ok.injEq, Prod.mk.injEq] at h
      exact h.2.symm

/-- Witness for `dVda_restores_state` at a concrete solver and state. -/
theorem dVda_restores_state_witness :
    (7 : ℚ) ≠ 0 ∧
    dVda (fun _ => some 0) (fun _ => 0) ⟨2, 3, 5⟩ 7 11 (1 / 100) = .ok (0, ⟨2, 3, 5⟩) ∧
    (DriverState.mk 2 3 5) = (DriverState.mk 2 3 5) := by
  refine ⟨by norm_num, by norm_num [dVda, assign_state_variables], ?_⟩
  exact dVda_restores_state (fun _ => some 0) (fun _ => 0) ⟨2, 3, 5⟩ 7 11 (1 / 100)
    (by norm_num) 0 ⟨2, 3, 5⟩ (by norm_num [dVda, assign_state_variables])

/-- C6: For every activation_value ≠ 0 and pressure_value, `dVda` sets the
driver to the target pair with one direct solve, records `v_i`, assigns the
perturbed activation `activation_value * (1 + delta_a_percent)` with a
second direct solve, records `v_f`, and returns exactly the forward
difference `(v_f - v_i) / (activation_value * delta_a_percent)` together
with the restored pre-call state. -/
theorem dVda_forward_difference (solve : DriverState → Option ℚ) (vol : ℚ → ℚ)
    (s : DriverState) (a p δ : ℚ) (ha : a ≠ 0) (d1 d2 : ℚ)
    (h1 : solve { s with pressure := p, activation := a } = some d1)
    (h2 : solve { s with pressure := p, activation := a * (1 + δ), state := d1 } = some d2) :
    dVda solve vol s a p δ = .ok ((vol d2 - vol d1) / (a * δ), s) := by
  unfold dVda assign_state_variables
  rw [show ({ s with pressure := p, activation := a } : DriverState) =
        ⟨a, p, s.state⟩ from rfl] at h1
  rw [show ({ s with pressure := p, activation := a * (1 + δ), state := d1 } : DriverState) =
        ⟨a * (1 + δ), p, d1⟩ from rfl] at h2
  simp only [h1, h2]

/-- Witness for `dVda_forward_difference` at a concrete solver and state. -/
theorem dVda_forward_difference_witness :
    (7 : ℚ) ≠ 0 ∧
    dVda (fun _ => some 0) (fun _ => 0) ⟨2, 3, 5⟩ 7 11 (1 / 100) =
      .ok ((0 - 0) / (7 * (1 / 100)), ⟨2, 3, 5⟩) := by
  refine ⟨by norm_num, ?_⟩
  exact dVda_forward_difference (fun _ => some 0) (fun _ => 0) ⟨2, 3, 5⟩ 7 11 (1 / 100)
    (by norm_num) 0 0 rfl rfl

/-- C2 counterexample: an exception raised inside `dVda` after the
checkpoint is taken (here: a convergence failure of the first solve)
propagates with the driver left in the state of the failed attempt — the
activation scalar is the target value 7, not the original value 2 — so the
original state is not restored on this exit path. -/
theorem dVda_exception_counterexample :
    dVda (fun _ => none) (fun _ => 0) ⟨2, 3, 5⟩ 7 11 (1 / 100) = .error ⟨7, 11, 5⟩ ∧
    (DriverState.mk 7 11 5) ≠ (DriverState.mk 2 3 5) := by
  refine ⟨rfl, ?_⟩
  intro h
  have := congrArg DriverState.activation h
  norm_num at this

/-- C2 (amended): if an exception is raised inside `dVda` after the state
checkpoint is taken and before the restore (a convergence failure of either
direct solve), the exception propagates WITHOUT restoring the driver's
original state: the driver is left with the scalars assigned for the failed
attempt (and, after a successful first solve, the deformation produced by
that solve). -/
theorem dVda_error_leaves_assigned_state (solve : DriverState → Option ℚ) (vol : ℚ → ℚ)
    (s : DriverState) (a p δ : ℚ) :
    (solve { s with pressure := p, activation := a } = none →
      dVda solve vol s a p δ = .error { s with pressure := p, activation := a }) ∧
    (∀ d1, solve { s with pressure := p, activation := a } = some d1 →
      solve { s with pressure := p, activation := a * (1 + δ), state := d1 } = none →
      dVda solve vol s a p δ =
        .error { s with pressure := p, activation := a * (1 + δ), state := d1 }) := by
  constructor
  · intro h
    unfold dVda assign_state_variables
    rw [show ({ s with pressure := p, activation := a } : DriverState) =
          ⟨a, p, s.state⟩ from rfl] at h ⊢
    simp only [h]
  · intro d1 h1 h2
    unfold dVda assign_state_variables
    rw [show ({ s with pressure := p, activation := a } : DriverState) =
          ⟨a, p, s.state⟩ from rfl] at h1
    rw [show ({ s with pressure := p, activation := a * (1 + δ), state := d1 } : DriverState) =
          ⟨a * (1 + δ), p, d1⟩ from rfl] at h2 ⊢
    simp only [h1, h2]

/-- Witness for `dVda_error_leaves_assigned_state` at a failing solver. -/
theorem dVda_error_leaves_assigned_state_witness :
    dVda (fun _ => none) (fun _ => (0 : ℚ)) ⟨2, 3, 5⟩ 7 11 (1 / 100) =
      .error { DriverState.mk 2 3 5 with pressure := 11, activation := 7 } :=
  (dVda_error_leaves_assigned_state (fun _ => none) (fun _ => (0 : ℚ))
    ⟨2, 3, 5⟩ 7 11 (1 / 100)).1 rfl

/-- When a key is present in the dictionary, `find?`-then-default returns
its stored value. -/
theorem dictGet_getD_snd (d : List (String × ℚ)) (k : String) (v : ℚ)
    (p0 : String × ℚ) (h : dictGet d k = some v) :
    ((d.find? (fun p => p.1 = k)).getD p0).2 = v := by
  unfold dictGet at h
  cases e : d.find? (fun p => p.1 = k) with
  | none => rw [e] at h; simp at h
  | some pr => rw [e] at h; simp at h; simpa using h

/-- When a key is absent from the dictionary, `find?`-then-default returns
the fallback value. -/
theorem dictGet_getD_snd_none (d : List (String × ℚ)) (k : String)
    (p0 : String × ℚ) (h : dictGet d k = none) :
    ((d.find? (fun p => p.1 = k)).getD p0).2 = p0.2 := by
  unfold dictGet at h
  cases e : d.find? (fun p => p.1 = k) with
  | none => rfl
  | some pr => rw [e] at h; simp at h

/-- C10: For every input dictionary `d` (including the empty dictionary and
`None`), `get_fiber_angles d` returns a dictionary whose key sequence is
exactly alpha_endo_lv, alpha_epi_lv, beta_endo_lv, beta_epi_lv, where each
value is `d[k]` when `k` is present and the default (60, -60, -15, 15
respectively) otherwise; keys of `d` outside this set are silently dropped,
and the empty dictionary yields the full default set exactly as `None`
does. -/
theorem get_fiber_angles_spec (d : List (String × ℚ)) :
    ((get_fiber_angles (some d)).map Prod.fst =
      ["alpha_endo_lv", "alpha_epi_lv", "beta_endo_lv", "beta_epi_lv"]) ∧
    (∀ k v, k ∈ get_default_fiber_angles.map Prod.fst → dictGet d k = some v →
      dictGet (get_fiber_angles (some d)) k = some v) ∧
    (∀ k dv, (k, dv) ∈ get_default_fiber_angles → dictGet d k = none →
      dictGet (get_fiber_angles (some d)) k = some dv) ∧
    (∀ k, k ∉ get_default_fiber_angles.map Prod.fst →
      dictGet (get_fiber_angles (some d)) k = none) ∧
    get_fiber_angles (some []) = get_default_fiber_angles ∧
    get_fiber_angles none = get_default_fiber_angles := by
  by_cases hd : d.isEmpty
  · rw [List.isEmpty_iff] at hd
    subst hd
    refine ⟨by decide, ?_, ?_, ?_, rfl, rfl⟩
    · intro k v _ hv
      simp [dictGet] at hv
    · intro k dv hmem _
      simp only [get_fiber_angles, List.isEmpty_nil, if_true]
      simp only [get_default_fiber_angles, List.mem_cons, List.not_mem_nil, or_false,
        Prod.mk.injEq] at hmem
      rcases hmem with ⟨rfl, rfl⟩ | ⟨rfl, rfl⟩ | ⟨rfl, rfl⟩ | ⟨rfl, rfl⟩ <;> rfl
    · intro k hk
      simp only [get_fiber_angles, List.isEmpty_nil, if_true]
      simp only [get_default_fiber_angles, List.map_cons, List.map_nil, List.mem_cons,
        List.not_mem_nil, or_false, not_or] at hk
      obtain ⟨h1, h2, h3, h4⟩ := hk
      simp [dictGet, List.find?, get_default_fiber_angles,
        Ne.symm h1, Ne.symm h2, Ne.symm h3, Ne.symm h4]
  · have hne : d.isEmpty = false := by simpa using hd
    have hrw : get_fiber_angles (some d) =
        get_default_fiber_angles.map (fun p => (p.1, (dictGet d p.1).getD p.2)) := by
      simp [get_fiber_angles, hne]
    refine ⟨?_, ?_, ?_, ?_, rfl, rfl⟩
    · rw [hrw]
      simp [List.map_map, get_default_fiber_angles]
    · intro k v hk hv
      simp only [get_default_fiber_angles, List.map_cons, List.map_nil, List.mem_cons,
        List.not_mem_nil, or_false] at hk
      rcases hk with rfl | rfl | rfl | rfl <;>
        · simp [hrw, dictGet, List.find?, get_default_fiber_angles]
          exact dictGet_getD_snd d _ v _ hv
    · intro k dv hmem hv
      simp only [get_default_fiber_angles, List.mem_cons, List.not_mem_nil, or_false,
        Prod.mk.injEq] at hmem
      rcases hmem with ⟨rfl, rfl⟩ | ⟨rfl, rfl⟩ | ⟨rfl, rfl⟩ | ⟨rfl, rfl⟩ <;>
        · simp [hrw, dictGet, List.find?, get_default_fiber_angles]
          exact dictGet_getD_snd_none d _ _ hv
    · intro k hk
      simp only [get_default_fiber_angles, List.map_cons, List.map_nil, List.mem_cons,
        List.not_mem_nil, or_false, not_or] at hk
      obtain ⟨h1, h2, h3, h4⟩ := hk
      simp [hrw, dictGet, List.find?, get_default_fiber_angles,
        Ne.symm h1, Ne.symm h2, Ne.symm h3, Ne.symm h4]

/-- Witness for `get_fiber_angles_spec` at a concrete dictionary: a supplied
key overrides its default, a missing key falls back, a foreign key is
dropped. -/
theorem get_fiber_angles_spec_witness :
    dictGet (get_fiber_angles (some [("alpha_endo_lv", 10), ("junk", 3)]))
      "alpha_endo_lv" = some 10 :=
  (get_fiber_angles_spec [("alpha_endo_lv", 10), ("junk", 3)]).2.1
    "alpha_endo_lv" 10 (by decide) rfl

/-- Running sub-steps distributes over list append (the Except short-circuit
composes). -/
theorem runSteps_append (solve : DriverState → Option ℚ)
    (setCtl : DriverState → ℚ → DriverState) (l1 l2 : List ℚ) :
    ∀ s, runSteps solve setCtl s (l1 ++ l2) =
      match runSteps solve setCtl s l1 with
      | .ok s1 => runSteps solve setCtl s1 l2
      | .error e => .error e := by
  induction l1 with
  | nil => intro s; rfl
  | cons v vs ih =>
    intro s
    simp only [List.cons_append, runSteps]
    cases stepOnce solve setCtl s v with
    | ok s1 => exact ih s1
    | error e => rfl

/-- Sub-steps that only assign the activation control never change the
pressure scalar. -/
theorem runSteps_setActivation_pressure (solve : DriverState → Option ℚ) :
    ∀ (vs : List ℚ) (s s' : DriverState),
      runSteps solve setActivation s vs = .ok s' → s'.pressure = s.pressure := by
  intro vs
  induction vs with
  | nil =>
    intro s s' h
    simp only [runSteps, Except.ok.injEq] at h
    rw [← h]
  | cons v vs ih =>
    intro s s' h
    simp only [runSteps, stepOnce] at h
    cases e : solve (setActivation s v) with
    | none => rw [e] at h; simp at h
    | some d =>
      rw [e] at h
      have := ih _ _ h
      simpa [setActivation] using this

/-- Sub-steps that only assign the pressure control never change the
activation scalar. -/
theorem runSteps_setPressure_activation (solve : DriverState → Option ℚ) :
    ∀ (vs : List ℚ) (s s' : DriverState),
      runSteps solve setPressure s vs = .ok s' → s'.activation = s.activation := by
  intro vs
  induction vs with
  | nil =>
    intro s s' h
    simp only [runSteps, Except.ok.injEq] at h
    rw [← h]
  | cons v vs ih =>
    intro s s' h
    simp only [runSteps, stepOnce] at h
    cases e : solve (setPressure s v) with
    | none => rw [e] at h; simp at h
    | some d =>
      rw [e] at h
      have := ih _ _ h
      simpa [setPressure] using this

/-- A successful run whose last sub-step assigns control value `v` ends in a
state produced by a successful solve at control `v`. -/
theorem runSteps_snoc_ok (solve : DriverState → Option ℚ)
    (setCtl : DriverState → ℚ → DriverState) (vs : List ℚ) (v : ℚ) (s s' : DriverState)
    (h : runSteps solve setCtl s (vs ++ [v]) = .ok s') :
    ∃ sm d, runSteps solve setCtl s vs = .ok sm ∧
      solve (setCtl sm v) = some d ∧ s' = { setCtl sm v with state := d } := by
  rw [runSteps_append] at h
  cases e : runSteps solve setCtl s vs with
  | error e1 => rw [e] at h; simp at h
  | ok sm =>
    rw [e] at h
    simp only [runSteps, stepOnce] at h
    cases e2 : solve (setCtl sm v) with
    | none => rw [e2] at h; simp at h
    | some d =>
      rw [e2] at h
      simp only [Except.ok.injEq] at h
      exact ⟨sm, d, rfl, e2, h.symm⟩

/-- `n + 1` equal sub-steps decompose as `n` intermediate control values
followed by the exact target. -/
theorem substeps_eq_snoc (v0 target : ℚ) (n : ℕ) :
    substeps v0 target (n + 1) =
      ((List.range n).map
        (fun i => v0 + ((i + 1 : ℕ) : ℚ) * (target - v0) / ((n : ℚ) + 1))) ++ [target] := by
  unfold substeps
  rw [List.range_succ, List.map_append]
  congr 1
  · apply List.map_congr_left
    intro i _
    push_cast
    ring
  · simp only [List.map_cons, List.map_nil, List.cons.injEq, and_true]
    have hne : ((n : ℚ) + 1) ≠ 0 := by positivity
    push_cast
    field_simp

/-- A successful activation continuation (with at least one sub-step) ends
with the activation at the target, the pressure untouched, and the
deformation produced by a successful solve. -/
theorem iterateCtl_activation_ok (solve : DriverState → Option ℚ) (s s' : DriverState)
    (a : ℚ) (n : ℕ) (hn : 0 < n)
    (h : iterateCtl solve setActivation (fun st => st.activation) s a n = .ok s') :
    s'.activation = a ∧ s'.pressure = s.pressure ∧ ∃ spre, solve spre = some s'.state := by
  cases n with
  | zero => omega
  | succ m =>
    unfold iterateCtl at h
    rw [substeps_eq_snoc] at h
    obtain ⟨sm, d, hrun, hsolve, rfl⟩ := runSteps_snoc_ok _ _ _ _ _ _ h
    refine ⟨rfl, ?_, ⟨setActivation sm a, hsolve⟩⟩
    have := runSteps_setActivation_pressure solve _ _ _ hrun
    simpa [setActivation] using this

/-- A successful pressure continuation (with at least one sub-step) ends
with the pressure at the target, the activation untouched, and the
deformation produced by a successful solve. -/
theorem iterateCtl_pressure_ok (solve : DriverState → Option ℚ) (s s' : DriverState)
    (p : ℚ) (n : ℕ) (hn : 0 < n)
    (h : iterateCtl solve setPressure (fun st => st.pressure) s p n = .ok s') :
    s'.pressure = p ∧ s'.activation = s.activation ∧ ∃ spre, solve spre = some s'.state := by
  cases n with
  | zero => omega
  | succ m =>
    unfold iterateCtl at h
    rw [substeps_eq_snoc] at h
    obtain ⟨sm, d, hrun, hsolve, rfl⟩ := runSteps_snoc_ok _ _ _ _ _ _ h
    refine ⟨rfl, ?_, ⟨setPressure sm p, hsolve⟩⟩
    have := runSteps_setPressure_activation solve _ _ _ hrun
    simpa [setPressure] using this

/-- C3: Every call `compute_volume(activation_target, pressure_target)`
first advances the activation to its target and only then the pressure
(each by incremental continuation with `n ≥ 1` sub-steps, re-solving at
each sub-step): a normal return passes through an intermediate state whose
activation is at target while the pressure is still the original, returns
the cavity volume computed from the final converged state, and a failed
sub-step in either phase makes the call raise instead of returning a
volume. -/
theorem compute_volume_spec (solve : DriverState → Option ℚ) (vol : ℚ → ℚ)
    (s : DriverState) (a p : ℚ) (n : ℕ) (hn : 0 < n) :
    (∀ v s', compute_volume solve vol s a p n = .ok (v, s') →
      ∃ s1, iterateCtl solve setActivation (fun st => st.activation) s a n = .ok s1 ∧
        s1.activation = a ∧ s1.pressure = s.pressure ∧
        iterateCtl solve setPressure (fun st => st.pressure) s1 p n = .ok s' ∧
        s'.activation = a ∧ s'.pressure = p ∧ v = vol s'.state ∧
        ∃ spre, solve spre = some s'.state) ∧
    (∀ e, iterateCtl solve setActivation (fun st => st.activation) s a n = .error e →
      compute_volume solve vol s a p n = .error e) ∧
    (∀ s1 e, iterateCtl solve setActivation (fun st => st.activation) s a n = .ok s1 →
      iterateCtl solve setPressure (fun st => st.pressure) s1 p n = .error e →
      compute_volume solve vol s a p n = .error e) := by
  refine ⟨?_, ?_, ?_⟩
  · intro v s' h
    unfold compute_volume at h
    split at h
    next he => exact absurd h (by simp)
    next s1 he1 =>
      split at h
      next he2 => exact absurd h (by simp)
      next s2 he2 =>
        simp only [Except.ok.injEq, Prod.mk.injEq] at h
        obtain ⟨hv, hs⟩ := h
        subst hs
        obtain ⟨ha1, hp1, _⟩ := iterateCtl_activation_ok solve s s1 a n hn he1
        obtain ⟨hp2, ha2, hsolve2⟩ := iterateCtl_pressure_ok solve s1 s2 p n hn he2
        exact ⟨s1, he1, ha1, hp1, he2, ha2.trans ha1, hp2, hv.symm, hsolve2⟩
  · intro e he
    simp [compute_volume, he]
  · intro s1 e h1 h2
    simp [compute_volume, h1, h2]

/-- Witness for `compute_volume_spec` at a concrete solver, one sub-step per
phase. -/
theorem compute_volume_spec_witness :
    ∃ s1, iterateCtl (fun _ => some 0) setActivation (fun st => st.activation)
        ⟨0, 0, 0⟩ 1 1 = .ok s1 ∧
      s1.activation = 1 ∧ s1.pressure = (DriverState.mk 0 0 0).pressure ∧
      iterateCtl (fun _ => some 0) setPressure (fun st => st.pressure)
        s1 2 1 = .ok ⟨1, 2, 0⟩ ∧
      (DriverState.mk 1 2 0).activation = 1 ∧ (DriverState.mk 1 2 0).pressure = 2 ∧
      (0 : ℚ) = 0 ∧ ∃ spre : DriverState, (some (0 : ℚ)) = some 0 :=
  (compute_volume_spec (fun _ => some 0) (fun _ => (0 : ℚ)) ⟨0, 0, 0⟩ 1 2 1
    (by norm_num)).1 0 ⟨1, 2, 0⟩ (by
      norm_num [compute_volume, iterateCtl, substeps, runSteps, stepOnce,
        setActivation, setPressure])

/-- The rounded value is within one half of the argument (for any tie
behaviour). -/
theorem nround_dist_le (q : ℚ) : |(nround q : ℚ) - q| ≤ 1 / 2 := by
  simp only [nround]
  have h0 : (0 : ℚ) ≤ q - ⌊q⌋ := by
    have := Int.floor_le q
    linarith
  have h1 : q - ⌊q⌋ < 1 := by
    have := Int.lt_floor_add_one q
    linarith
  split
  next hlt => rw [abs_le]; constructor <;> linarith
  next hge =>
    split
    next hgt => push_cast; rw [abs_le]; constructor <;> linarith
    next hle =>
      have heq : q - (⌊q⌋ : ℚ) = 1 / 2 := by linarith
      split
      · rw [abs_le]; constructor <;> linarith
      · push_cast; rw [abs_le]; constructor <;> linarith

/-- Arguments more than one apart round to different integers. -/
theorem nround_ne_of_far (a b : ℚ) (h : 1 < |a - b|) : nround a ≠ nround b := by
  intro he
  have ha := nround_dist_le a
  have hb := nround_dist_le b
  rw [he] at ha
  have : |a - b| ≤ 1 := by
    have habs : |a - b| ≤ |a - (nround b : ℚ)| + |(nround b : ℚ) - b| := by
      have : a - b = (a - (nround b : ℚ)) + ((nround b : ℚ) - b) := by ring
      rw [this]
      exact abs_add _ _
    rw [abs_sub_comm] at ha
    linarith
  linarith

/-- Sorting preserves length. -/
theorem sortI_length (l : List ℤ) : (sortI l).length = l.length :=
  List.length_insertionSort (· ≤ ·) l

/-- Sorting identifies permuted lists. -/
theorem sortI_perm_eq (l1 l2 : List ℤ) (hp : l1.Perm l2) : sortI l1 = sortI l2 := by
  unfold sortI
  exact List.eq_of_perm_of_sorted
    ((List.perm_insertionSort (· ≤ ·) l1).trans
      (hp.trans (List.perm_insertionSort (· ≤ ·) l2).symm))
    (List.sorted_insertionSort (· ≤ ·) l1)
    (List.sorted_insertionSort (· ≤ ·) l2)

/-- Replacing one column entry by a different value changes the sorted
column. -/
theorem sortI_replace_ne (rl1 rl2 : List ℤ) (r r' : ℤ) (hne : r' ≠ r) :
    sortI (rl1 ++ r' :: rl2) ≠ sortI (rl1 ++ r :: rl2) := by
  intro he
  have hp : (rl1 ++ r' :: rl2).Perm (rl1 ++ r :: rl2) := by
    have p1 := List.perm_insertionSort (· ≤ ·) (rl1 ++ r' :: rl2)
    have p2 := List.perm_insertionSort (· ≤ ·) (rl1 ++ r :: rl2)
    unfold sortI at he
    rw [he] at p1
    exact p1.symm.trans p2
  have hc := hp.count_eq r
  rw [List.count_append, List.count_append, List.count_cons_self,
    List.count_cons_of_ne (Ne.symm hne)] at hc
  omega

/-- `flatten3` is injective on triples of columns of matching lengths. -/
theorem flatten3_inj (a : List ℤ) : ∀ (b c a' b' c' : List ℤ),
    a.length = b.length → b.length = c.length →
    a'.length = b'.length → b'.length = c'.length →
    a.length = a'.length →
    flatten3 a b c = flatten3 a' b' c' → a = a' ∧ b = b' ∧ c = c' := by
  induction a with
  | nil =>
    intro b c a' b' c' h1 h2 h3 h4 h5 _
    simp only [List.length_nil] at h1 h5
    have hb : b = [] := List.length_eq_zero.mp (by omega)
    have hc : c = [] := List.length_eq_zero.mp (by omega)
    have ha' : a' = [] := List.length_eq_zero.mp (by omega)
    have hb' : b' = [] := List.length_eq_zero.mp (by omega)
    have hc' : c' = [] := List.length_eq_zero.mp (by omega)
    exact ⟨ha'.symm, hb.trans hb'.symm, hc.trans hc'.symm⟩
  | cons x xs ih =>
    intro b c a' b' c' h1 h2 h3 h4 h5 h6
    cases b with
    | nil => simp at h1
    | cons y ys =>
      cases c with
      | nil => simp at h2
      | cons z zs =>
        cases a' with
        | nil => simp at h5
        | cons x' xs' =>
          cases b' with
          | nil => simp at h3
          | cons y' ys' =>
            cases c' with
            | nil => simp at h4
            | cons z' zs' =>
              simp only [flatten3, List.cons.injEq] at h6
              obtain ⟨rfl, rfl, rfl, h7⟩ := h6
              simp only [List.length_cons] at h1 h2 h3 h4 h5
              obtain ⟨e1, e2, e3⟩ := ih ys zs xs' ys' zs'
                (by omega) (by omega) (by omega) (by omega) (by omega) h7
              exact ⟨by rw [e1], by rw [e2], by rw [e3]⟩

/-- The geometric key is invariant under any permutation of the vertex
rows. -/
theorem triangle_key_perm_invariant (tol : ℚ) (c1 c2 : List Pt3) (hp : c1.Perm c2) :
    triangle_key c1 tol = triangle_key c2 tol := by
  simp only [triangle_key]
  rw [sortI_perm_eq _ _ (hp.map _), sortI_perm_eq _ _ (hp.map _),
    sortI_perm_eq _ _ (hp.map _)]

/-- Perturbing one x-coordinate by more than the tolerance changes the key. -/
theorem triangle_key_perturb_x (tol : ℚ) (htol : 0 < tol) (l1 l2 : List Pt3)
    (p : Pt3) (d : ℚ) (hd : tol < |d|) :
    triangle_key (l1 ++ { p with x := p.x + d } :: l2) tol ≠
      triangle_key (l1 ++ p :: l2) tol := by
  intro he
  simp only [triangle_key, List.map_append, List.map_cons] at he
  have hxne : nround ((p.x + d) / tol) ≠ nround (p.x / tol) := by
    apply nround_ne_of_far
    have heq : (p.x + d) / tol - p.x / tol = d / tol := by ring
    rw [heq, abs_div, abs_of_pos htol]
    exact (one_lt_div htol).mpr hd
  obtain ⟨hX, _, _⟩ := flatten3_inj _ _ _ _ _ _
    (by simp [sortI_length]) (by simp [sortI_length]) (by simp [sortI_length])
    (by simp [sortI_length]) (by simp [sortI_length]) he
  exact sortI_replace_ne _ _ _ _ hxne hX

/-- Perturbing one y-coordinate by more than the tolerance changes the key. -/
theorem triangle_key_perturb_y (tol : ℚ) (htol : 0 < tol) (l1 l2 : List Pt3)
    (p : Pt3) (d : ℚ) (hd : tol < |d|) :
    triangle_key (l1 ++ { p with y := p.y + d } :: l2) tol ≠
      triangle_key (l1 ++ p :: l2) tol := by
  intro he
  simp only [triangle_key, List.map_append, List.map_cons] at he
  have hyne : nround ((p.y + d) / tol) ≠ nround (p.y / tol) := by
    apply nround_ne_of_far
    have heq : (p.y + d) / tol - p.y / tol = d / tol := by ring
    rw [heq, abs_div, abs_of_pos htol]
    exact (one_lt_div htol).mpr hd
  obtain ⟨_, hY, _⟩ := flatten3_inj _ _ _ _ _ _
    (by simp [sortI_length]) (by simp [sortI_length]) (by simp [sortI_length])
    (by simp [sortI_length]) (by simp [sortI_length]) he
  exact sortI_replace_ne _ _ _ _ hyne hY

/-- Perturbing one z-coordinate by more than the tolerance changes the key. -/
theorem triangle_key_perturb_z (tol : ℚ) (htol : 0 < tol) (l1 l2 : List Pt3)
    (p : Pt3) (d : ℚ) (hd : tol < |d|) :
    triangle_key (l1 ++ { p with z := p.z + d } :: l2) tol ≠
      triangle_key (l1 ++ p :: l2) tol := by
  intro he
  simp only [triangle_key, List.map_append, List.map_cons] at he
  have hzne : nround ((p.z + d) / tol) ≠ nround (p.z / tol) := by
    apply nround_ne_of_far
    have heq : (p.z + d) / tol - p.z / tol = d / tol := by ring
    rw [heq, abs_div, abs_of_pos htol]
    exact (one_lt_div htol).mpr hd
  obtain ⟨_, _, hZ⟩ := flatten3_inj _ _ _ _ _ _
    (by simp [sortI_length]) (by simp [sortI_length]) (by simp [sortI_length])
    (by simp [sortI_length]) (by simp [sortI_length]) he
  exact sortI_replace_ne _ _ _ _ hzne hZ

/-- C7 counterexample: the key is NOT insensitive to every perturbation
smaller than the tolerance — moving an x-coordinate from 0.4·tol to 0.6·tol
(a perturbation of 0.2·tol, well below the tolerance 1e-6) crosses the
rounding midpoint and changes the key. -/
theorem triangle_key_subtol_counterexample :
    |(3 / 5000000 : ℚ) - 2 / 5000000| < tolDefault ∧
    triangle_key [⟨3 / 5000000, 0, 0⟩, ⟨0, 0, 0⟩, ⟨1 / 1000000, 0, 0⟩] tolDefault ≠
      triangle_key [⟨2 / 5000000, 0, 0⟩, ⟨0, 0, 0⟩, ⟨1 / 1000000, 0, 0⟩] tolDefault := by
  constructor
  · rw [show (3 / 5000000 : ℚ) - 2 / 5000000 = 1 / 5000000 by norm_num]
    rw [abs_of_pos (by norm_num : (0 : ℚ) < 1 / 5000000)]
    norm_num [tolDefault]
  · with_unfolding_all decide

/-- C7 (amended): the geometric key function `triangle_key` returns the same
key for any permutation of the vertex rows of a face's coordinate array
(round, then sort, then hash), and returns a different key whenever any
single vertex coordinate is perturbed by more than the tolerance; a
perturbation smaller than the tolerance preserves the key only when every
rounded coordinate is unchanged — a sub-tolerance perturbation that crosses
a rounding midpoint changes the key. -/
theorem triangle_key_amended (tol : ℚ) (htol : 0 < tol) :
    (∀ c1 c2 : List Pt3, c1.Perm c2 → triangle_key c1 tol = triangle_key c2 tol) ∧
    (∀ (l1 l2 : List Pt3) (p : Pt3) (d : ℚ), tol < |d| →
      triangle_key (l1 ++ { p with x := p.x + d } :: l2) tol ≠
        triangle_key (l1 ++ p :: l2) tol ∧
      triangle_key (l1 ++ { p with y := p.y + d } :: l2) tol ≠
        triangle_key (l1 ++ p :: l2) tol ∧
      triangle_key (l1 ++ { p with z := p.z + d } :: l2) tol ≠
        triangle_key (l1 ++ p :: l2) tol) :=
  ⟨fun c1 c2 hp => triangle_key_perm_invariant tol c1 c2 hp,
   fun l1 l2 p d hd =>
    ⟨triangle_key_perturb_x tol htol l1 l2 p d hd,
     triangle_key_perturb_y tol htol l1 l2 p d hd,
     triangle_key_perturb_z tol htol l1 l2 p d hd⟩⟩

/-- Witness for `triangle_key_amended`: permutation invariance at a concrete
two-row coordinate array for the default tolerance. -/
theorem triangle_key_amended_witness :
    triangle_key [⟨1, 2, 3⟩, ⟨4, 5, 6⟩] tolDefault =
      triangle_key [⟨4, 5, 6⟩, ⟨1, 2, 3⟩] tolDefault :=
  (triangle_key_amended tolDefault (by norm_num [tolDefault])).1 _ _
    (List.Perm.swap _ _ _)

/-- A well-formed mesh containing the three named groups whose cell blocks
are ordered with the tetra volume block FIRST: `cells[0]` is the tetra
block, and the Epi/Endo/Base triangle blocks follow. -/
def mshBad : MeshioMesh :=
  { points := [⟨0, 0, 0⟩, ⟨1 / 1000000, 0, 0⟩, ⟨0, 1 / 1000000, 0⟩, ⟨0, 0, 1 / 1000000⟩],
    cells := [⟨"tetra", [[0, 1, 2, 3]]⟩, ⟨"triangle", [[0, 1, 2]]⟩,
      ⟨"triangle", [[0, 1, 3]]⟩, ⟨"triangle", [[0, 2, 3]]⟩],
    cell_sets := [("Epi", [[0, 1, 2]]), ("Endo", [[0, 1, 3]]), ("Base", [[0, 2, 3]])] }

/-- C5 counterexample: on a mesh that contains the three named groups but
lists its tetra block first, the key set the tagger uses for the Epi lookup
(built from the hard-coded block `msh.cells[0]` — here the tetra block) is
not the key set of the surface elements of the named group Epi. -/
theorem group_keys_counterexample :
    mshBad.cell_sets.map Prod.fst = ["Epi", "Endo", "Base"] ∧
    epi_keys mshBad ≠ spec_group_keys mshBad "Epi" := by
  constructor
  · rfl
  · with_unfolding_all decide

/-- C5 (amended): the key sets used for marker lookup are built from the
cell blocks at the fixed indices 0, 1 and 2 of the mesh (the named cell sets
are read but not used); only when those blocks are exactly the Epi, Endo and
Base surface-element groups respectively does each key set contain exactly
one key per surface element of its named group, computed by `triangle_key`
(round at tolerance 1e-6, sort, hash). -/
theorem group_keys_amended (msh : MeshioMesh)
    (h1 : epi_face_indices msh = groupTriangles msh "Epi")
    (h2 : endo_face_indices msh = groupTriangles msh "Endo")
    (h3 : base_face_indices msh = groupTriangles msh "Base") :
    (∀ k, k ∈ epi_keys msh ↔
      ∃ t ∈ groupTriangles msh "Epi", k = faceKey msh.points t tolDefault) ∧
    (∀ k, k ∈ endo_keys msh ↔
      ∃ t ∈ groupTriangles msh "Endo", k = faceKey msh.points t tolDefault) ∧
    (∀ k, k ∈ base_keys msh ↔
      ∃ t ∈ groupTriangles msh "Base", k = faceKey msh.points t tolDefault) := by
  refine ⟨fun k => ?_, fun k => ?_, fun k => ?_⟩
  · rw [epi_keys, h1]
    simp [build_face_keys, List.mem_toFinset, List.mem_map, eq_comm]
  · rw [endo_keys, h2]
    simp [build_face_keys, List.mem_toFinset, List.mem_map, eq_comm]
  · rw [base_keys, h3]
    simp [build_face_keys, List.mem_toFinset, List.mem_map, eq_comm]

/-- The same mesh with the conventional block order: the three triangle
blocks Epi, Endo, Base at indices 0, 1, 2, then the tetra block. -/
def mshGood : MeshioMesh :=
  { points := [⟨0, 0, 0⟩, ⟨1 / 1000000, 0, 0⟩, ⟨0, 1 / 1000000, 0⟩, ⟨0, 0, 1 / 1000000⟩],
    cells := [⟨"triangle", [[0, 1, 2]]⟩, ⟨"triangle", [[0, 1, 3]]⟩,
      ⟨"triangle", [[0, 2, 3]]⟩, ⟨"tetra", [[0, 1, 2, 3]]⟩],
    cell_sets := [("Epi", [[0, 1, 2]]), ("Endo", [[0, 1, 3]]), ("Base", [[0, 2, 3]])] }

/-- Witness for `group_keys_amended` on a mesh with the conventional block
order. -/
theorem group_keys_amended_witness :
    (∀ k, k ∈ epi_keys mshGood ↔
      ∃ t ∈ groupTriangles mshGood "Epi", k = faceKey mshGood.points t tolDefault) ∧
    (∀ k, k ∈ endo_keys mshGood ↔
      ∃ t ∈ groupTriangles mshGood "Endo", k = faceKey mshGood.points t tolDefault) ∧
    (∀ k, k ∈ base_keys mshGood ↔
      ∃ t ∈ groupTriangles mshGood "Base", k = faceKey mshGood.points t tolDefault) :=
  group_keys_amended mshGood (by decide) (by decide) (by decide)

/-- Reading a constant list within bounds returns the constant. -/
theorem getD_const (ys : List ℚ) (c : ℚ) (hc : ∀ x ∈ ys, x = c) (j : ℕ)
    (hj : j < ys.length) : ys.getD j 0 = c := by
  rw [List.getD_eq_getElem?_getD, List.getElem?_eq_getElem hj]
  exact hc _ (List.getElem_mem hj)

/-- Linear interpolation of a constant array (length at least 2) is that
constant at every query point, including extrapolation. -/
theorem interpLin_const (ys : List ℚ) (c : ℚ) (hlen : 2 ≤ ys.length)
    (hc : ∀ x ∈ ys, x = c) (q : ℚ) : interpLin ys q = c := by
  simp only [interpLin]
  set i : ℤ := max 0 (min ⌊q⌋ ((ys.length : ℤ) - 2)) with hi
  have h0 : 0 ≤ i := le_max_left _ _
  have h2i : i ≤ (ys.length : ℤ) - 2 := by
    rw [hi]
    apply max_le
    · omega
    · exact min_le_right _ _
  have hlt : i.toNat + 1 < ys.length := by omega
  have hlt0 : i.toNat < ys.length := by omega
  rw [getD_const ys c hc _ hlt0, getD_const ys c hc _ hlt]
  ring

/-- C9 counterexample: `average_array` applied to a non-empty list
containing a length-1 array raises (the linear interpolator requires at
least two samples), so it does not return a 100-sample array for every
non-empty input list. -/
theorem average_array_counterexample :
    average_array [[(5 : ℚ)]] = none ∧ ([[(5 : ℚ)]] : List (List ℚ)) ≠ [] := by
  constructor
  · rfl
  · simp

/-- Summing a constant over a list of arrays. -/
theorem sum_map_const (l : List (List ℚ)) (c : ℚ) :
    (l.map (fun _ => c)).sum = (l.length : ℚ) * c := by
  induction l with
  | nil => simp
  | cons a t ih =>
    simp only [List.map_cons, List.sum_cons, List.length_cons, ih]
    push_cast
    ring

/-- One output entry of the pointwise average over constant input arrays is
the constant. -/
theorem avg_entry_const (arrays : List (List ℚ)) (h0 : arrays ≠ [])
    (h2 : ∀ a ∈ arrays, 2 ≤ a.length) (c : ℚ)
    (hconst : ∀ a ∈ arrays, ∀ x ∈ a, x = c)
    (xs : List ℚ) (j : ℕ) (hj : j < xs.length) :
    ((arrays.map (fun a => xs.map (fun q => interpLin a q))).map
      (fun row => row.getD j 0)).sum / (arrays.length : ℚ) = c := by
  have hrows : (arrays.map (fun a => xs.map (fun q => interpLin a q))).map
      (fun row => row.getD j 0) = arrays.map (fun _ => c) := by
    rw [List.map_map]
    apply List.map_congr_left
    intro a ha
    simp only [Function.comp_apply]
    have hj' : j < (xs.map (fun q => interpLin a q)).length := by
      simpa using hj
    rw [List.getD_eq_getElem?_getD, List.getElem?_eq_getElem hj', List.getElem_map]
    exact interpLin_const a c (h2 a ha) (hconst a ha) _
  have hne : (arrays.length : ℚ) ≠ 0 := by
    simp only [ne_eq, Nat.cast_eq_zero, List.length_eq_zero]
    exact h0
  rw [hrows, sum_map_const]
  exact mul_div_cancel_left₀ c hne

/-- C9 (amended): for every non-empty list of input arrays each of length at
least 2, `average_array` returns an array of the configured common length
(100 samples); and when all input arrays have the same length and each is
constant with the same value c, every entry of the returned array equals
c. -/
theorem average_array_spec (arrays : List (List ℚ)) (h0 : arrays ≠ [])
    (h2 : ∀ a ∈ arrays, 2 ≤ a.length) :
    ∃ ys, average_array arrays = some ys ∧ ys.length = 100 ∧
      ∀ c L, (∀ a ∈ arrays, a.length = L ∧ ∀ x ∈ a, x = c) →
        ∀ y ∈ ys, y = c := by
  have hg1 : ¬(arrays.isEmpty = true) := by
    cases arrays with
    | nil => exact absurd rfl h0
    | cons a l => simp
  have hg2 : ¬((arrays.any fun a => a.length < 2) = true) := by
    simp only [List.any_eq_true, decide_eq_true_eq, not_exists, not_and, not_lt]
    intro a ha
    exact h2 a ha
  unfold average_array
  rw [if_neg hg1, if_neg hg2]
  refine ⟨_, rfl, ?_, ?_⟩
  · simp
  · intro c L hCL y hy
    simp only [List.mem_map, List.mem_range] at hy
    obtain ⟨j, hj, rfl⟩ := hy
    exact avg_entry_const arrays h0 h2 c (fun a ha => (hCL a ha).2) _ j (by simpa using hj)

/-- Witness for `average_array_spec` on two equal-length constant arrays. -/
theorem average_array_spec_witness :
    ∃ ys, average_array [[5, 5], [5, 5]] = some ys ∧ ys.length = 100 ∧
      ∀ c L, (∀ a ∈ ([[5, 5], [5, 5]] : List (List ℚ)), a.length = L ∧ ∀ x ∈ a, x = c) →
        ∀ y ∈ ys, y = c :=
  average_array_spec [[5, 5], [5, 5]] (by simp)
    (by
      intro a ha
      simp only [List.mem_cons, List.not_mem_nil, or_false] at ha
      rcases ha with rfl | rfl <;> simp)
